import Mathlib

/-!
Shallow embedding of the usage/period/interval derivation pipeline of the
nomie6-oss repository (src/domains/ai-query/ai-query-service.ts and the
today-store in the unnamed source parts), together with proofs settling the
frozen claims about it.

Calendar dates (ISO `YYYY-MM-DD` strings in the source) are modelled as
natural numbers counting days from an epoch: for such strings lexicographic
order (the order used by JavaScript `Array.prototype.sort` in the source)
coincides with chronological order, and `dayjs(a).diff(b, 'day')` is the
difference of the day numbers.  Timestamps (`log.end`, millisecond epoch
values in the source) are modelled as natural-number millisecond counts.
JavaScript numbers are modelled as exact rationals; every value the claims
exercise is a small dyadic rational, exactly representable as a double, so
the rational semantics agrees with the source on them.
-/

namespace Nomie

/-- A detected period, as produced by `detectPeriods` in
ai-query-service.ts: `{ start, end, duration }`.  The `end` field is named
`end_` because `end` is a Lean keyword. -/
structure Period where
  start : Nat
  end_ : Nat
  duration : Nat
deriving DecidableEq, Repr

/-- The lexicographic sort `[...dates].sort()` of the source, on day
numbers (for ISO date strings lexicographic = chronological order). -/
def sortDates (dates : List Nat) : List Nat :=
  List.insertionSort (· ≤ ·) dates

/-- The scan loop of `detectPeriods` (ai-query-service.ts lines 344-369):
`start` is `currentPeriodStart`, `cur` is the previously visited sorted
date (which always equals `currentPeriodEnd`), and the remaining sorted
dates are consumed one at a time.  `d - cur ≤ 1` is
`currentDate.diff(previousDate, 'day') <= 1` (the list is sorted, so the
difference is non-negative). -/
def detectGo (start cur : Nat) : List Nat → List Period
  | [] => [⟨start, cur, cur - start + 1⟩]
  | d :: rest =>
    if d - cur ≤ 1 then
      detectGo start d rest
    else
      ⟨start, cur, cur - start + 1⟩ :: detectGo d d rest

/-- Embedding of `detectPeriods` (ai-query-service.ts lines 336-372):
sort the dates, then scan once, merging a date into the current period
when it is at most one day after its predecessor. -/
def detectPeriods (dates : List Nat) : List Period :=
  match sortDates dates with
  | [] => []
  | d :: rest => detectGo d d rest

/-- Embedding of the context-duration date expansion of `getRelevantData`
(ai-query-service.ts lines 512-528): each observed log date `d` is
expanded to `d, d+1, …, d+duration-1`, collected into a `Set` (modelled by
`dedup`) and returned sorted (`Array.from(dateSet).sort()`). -/
def expandContextDates (dates : List Nat) (duration : Nat) : List Nat :=
  sortDates ((dates.map (fun d => (List.range duration).map (fun i => d + i))).flatten.dedup)

/-- A log entry as consumed by `calculateIntervals`: its `end` timestamp
(milliseconds since the epoch; named `end_` because `end` is a Lean
keyword) and the ids of the trackers referenced by its meta
(`log.trackers[..].id`). -/
structure NLog where
  end_ : Nat
  trackers : List String
deriving DecidableEq, Repr

/-- One element of the `intervals` array built by `calculateIntervals`. -/
structure Interval where
  hours : Nat
  minutes : Nat
  formatted : String
deriving DecidableEq, Repr

/-- The return record of `calculateIntervals`.  `averageHours` holds the
source's `avgHoursDecimal` and `averageMinutes` the mean minute delta;
both are JavaScript numbers, modelled as rationals. -/
structure IntervalResult where
  intervals : List Interval
  averageHours : ℚ
  averageMinutes : ℚ
  averageFormatted : String
deriving DecidableEq, Repr

/-- Tag normalization of `calculateIntervals` (ai-query-service.ts line
381): `trackerTag.startsWith('#') ? trackerTag.slice(1) : trackerTag`,
written on the underlying character list (`String.startsWith` is not
kernel-reducible). -/
def normalizeTag (tag : String) : String :=
  match tag.data with
  | c :: rest => if c = '#' then String.mk rest else tag
  | [] => tag

/-- The filter predicate of `calculateIntervals` (lines 384-391): a log
matches when some tracker id equals the normalized or the original tag. -/
def logMatchesTracker (trackerTag : String) (log : NLog) : Bool :=
  log.trackers.any (fun id => id == normalizeTag trackerTag || id == trackerTag)

/-- `currTime.diff(prevTime, 'minute')`: dayjs truncates the millisecond
difference to whole minutes; the logs are sorted ascending, so the
difference is non-negative and truncation is natural division. -/
def diffMinutes (a b : NLog) : Nat :=
  (b.end_ - a.end_) / 60000

/-- Per-interval formatting of `calculateIntervals` (lines 415-424):
pluralized hours and minutes, minutes clause omitted when zero, only
minutes shown when hours is 0. -/
def formatHM (hours minutes : Nat) : String :=
  if 0 < hours then
    let s := toString hours ++ " hour" ++ (if hours ≠ 1 then "s" else "")
    if 0 < minutes then
      s ++ " " ++ toString minutes ++ " minute" ++ (if minutes ≠ 1 then "s" else "")
    else s
  else
    toString minutes ++ " minute" ++ (if minutes ≠ 1 then "s" else "")

/-- One interval record for an adjacent pair of sorted logs (lines
410-426): the minute difference decomposed by `Math.floor(d / 60)` and
`d % 60`. -/
def mkInterval (a b : NLog) : Interval :=
  let d := diffMinutes a b
  ⟨d / 60, d % 60, formatHM (d / 60) (d % 60)⟩

/-- The interval-building loop over consecutive entries of the sorted
matching logs (`for i = 1; i < trackerLogs.length; i++`). -/
def mkIntervals : List NLog → List Interval
  | a :: b :: rest => mkInterval a b :: mkIntervals (b :: rest)
  | _ => []

/-- `Number.prototype.toFixed(1)` for the non-negative values arising
here: the integer nearest to `10 * q`, ties resolved upward, printed with
one decimal digit. -/
def toFixed1 (q : ℚ) : String :=
  let n : Nat := (⌊10 * q + 1 / 2⌋).toNat
  toString (n / 10) ++ "." ++ toString (n % 10)

/-- The average-formatting block of `calculateIntervals` (lines 429-446),
as a function of the mean minute delta (the only value it reads).
`avgHours` is `Math.floor(averageMinutes / 60)`, `avgMins` is
`Math.round(averageMinutes % 60)` (JavaScript `%` agrees with
`x - 60 * ⌊x / 60⌋` and `Math.round` with `⌊y + 1/2⌋` on the non-negative
values arising here). -/
def codeAvgFormat (averageMinutes : ℚ) : String :=
  let avgHours : ℤ := ⌊averageMinutes / 60⌋
  let avgMins : ℤ := ⌊averageMinutes - 60 * ⌊averageMinutes / 60⌋ + 1 / 2⌋
  let avgHoursDecimal : ℚ := averageMinutes / 60
  if avgHoursDecimal < 1 then
    toFixed1 avgHoursDecimal ++ " hours"
  else
    let s := toString avgHours ++ " hour" ++ (if avgHours ≠ 1 then "s" else "")
    if 0 < avgMins then
      s ++ " " ++ toString avgMins ++ " minute" ++ (if avgMins ≠ 1 then "s" else "")
    else s

/-- Ascending sort of logs by their `end` timestamp. -/
def sortLogs (logs : List NLog) : List NLog :=
  List.insertionSort (fun a b => a.end_ ≤ b.end_) logs

/-- The `trackerLogs` value of `calculateIntervals`: the logs referencing
the tracker, sorted ascending by timestamp
(`.sort((a, b) => dayjs(a.end).valueOf() - dayjs(b.end).valueOf())`;
JavaScript sort is stable, as is insertion sort). -/
def matchingLogs (logs : List NLog) (trackerTag : String) : List NLog :=
  sortLogs (logs.filter (logMatchesTracker trackerTag))

/-- `intervals.reduce((sum, interval) => sum + interval.hours * 60 + interval.minutes, 0)`. -/
def totalMinutesOf (ivs : List Interval) : Nat :=
  ivs.foldl (fun sum i => sum + (i.hours * 60 + i.minutes)) 0

/-- Embedding of `calculateIntervals` (ai-query-service.ts lines
375-455): filter the logs to those referencing the (normalized) tracker
tag, sort ascending by timestamp, return the sentinel when fewer than two
match, otherwise build the pairwise intervals and the averages. -/
def calculateIntervals (logs : List NLog) (trackerTag : String) : IntervalResult :=
  let trackerLogs := matchingLogs logs trackerTag
  if trackerLogs.length < 2 then
    { intervals := []
      averageHours := 0
      averageMinutes := 0
      averageFormatted := "N/A (need at least 2 entries)" }
  else
    let intervals := mkIntervals trackerLogs
    let averageMinutes : ℚ := (totalMinutesOf intervals : ℚ) / (intervals.length : ℚ)
    { intervals := intervals
      averageHours := averageMinutes / 60
      averageMinutes := averageMinutes
      averageFormatted := codeAvgFormat averageMinutes }


/-- The shape of a trackable as probed by the usage-enhancement step of
`getRelevantData`: `trackable.type` is `'tracker'` (with
`trackable.tracker.type`, e.g. `'tick'`) or `'context'` (with
`trackable.ctx.duration`, defaulting to 1). -/
inductive TrackableType
  | tracker (trackerType : String)
  | context (duration : Nat)
deriving DecidableEq, Repr

/-- Modelled from the spec: `logsToTrackableUsage` (usage-utils) is not
in the source tree.  Per the spec's data model, the usage record a tag
feeds into the enhancement step carries the trackable and, for each of
the tag's matching log entries in the queried window, one observed value
and one observed date; a value may be missing or non-numeric (JavaScript
`NaN`, modelled as `none`), and such values are excluded from `average`
and `count`. -/
structure UsageInput where
  ttype : TrackableType
  values : List (Option ℚ)
  dates : List Nat
deriving DecidableEq, Repr

/-- `usage.values.filter((v) => !isNaN(v)).length`, the `count` field of
the enhanced usage record (ai-query-service.ts line 540). -/
def usageCount (u : UsageInput) : Nat :=
  (u.values.filterMap id).length

def isTracker : TrackableType → Bool
  | .tracker _ => true
  | .context _ => false

/-- The guard of the period-detection enhancement (line 545):
`trackable?.type === 'context' || (trackable?.type === 'tracker' &&
trackable?.tracker?.type === 'tick')`. -/
def isPeriodTrackable : TrackableType → Bool
  | .context _ => true
  | .tracker t => t == "tick"

/-- The guard of the interval enhancement (line 559):
`trackable?.type === 'tracker' && baseData.count > 1`. -/
def intervalsAttached (u : UsageInput) : Bool :=
  isTracker u.ttype && decide (1 < usageCount u)

/-- Comparator relation of `sortedPeriods` (line 551):
`[...periods].sort((a, b) => dayjs(b.end).diff(dayjs(a.end)))` sorts
descending by period end. -/
def endGE (a b : Period) : Prop :=
  b.end_ ≤ a.end_

instance : DecidableRel endGE :=
  fun a b => Nat.decLe b.end_ a.end_

instance : IsTotal Period endGE :=
  ⟨fun a b => (Nat.le_total a.end_ b.end_).symm⟩

instance : IsTrans Period endGE :=
  ⟨fun _ _ _ h1 h2 => Nat.le_trans h2 h1⟩

/-- `lastPeriod` of the enhancement step (lines 551-553): head of the
periods sorted descending by end date. -/
def lastPeriodOf (periods : List Period) : Option Period :=
  (List.insertionSort endGE periods).head?

/-- `longestPeriod` of the enhancement step (line 554):
`periods.reduce((longest, p) => p.duration > longest.duration ? p : longest, periods[0])`
(a fold over the whole array with `periods[0]` as initial value). -/
def longestPeriodOf : List Period → Option Period
  | [] => none
  | p :: rest =>
    some ((p :: rest).foldl (fun longest q => if longest.duration < q.duration then q else longest) p)

/-- Modelled from the spec: `getContextOn` (context-utils) is not in the
source tree.  Per the spec's Context-Window Resolver contract, a context
is considered active on `today` exactly when some log date `d` satisfies
`d ≤ today ≤ d + duration - 1`; inactive contexts are omitted. -/
def contextActiveOn (dates : List Nat) (duration today : Nat) : Bool :=
  dates.any (fun d => decide (d ≤ today) && decide (today ≤ d + (duration - 1)))

/-- The remaining-days display computation of `loadToday` (today-store,
unnamed part_002 lines 59-101) for one active context, as a function of
the context's log dates (day numbers), its duration and today's day
number: filter the dates whose window `[d, d + duration - 1]` contains
today, take the most recent
(`reduce((latest, current) => current.isAfter(latest) ? current : latest)`),
and when `duration > 1` and `remainingDays = contextEnd.diff(today) + 1`
is positive, render `"1 day left"` / `"<N> days left"`; in every other
case the display value stays `'1'`. -/
def loadTodayDisplayValue (dates : List Nat) (duration today : Nat) : String :=
  let activeDates := dates.filter (fun d => decide (d ≤ today) && decide (today ≤ d + (duration - 1)))
  match activeDates with
  | [] => "1"
  | a :: rest =>
    let mostRecent := rest.foldl (fun latest current => if latest < current then current else latest) a
    if 1 < duration then
      let remainingDays : ℤ := ((mostRecent + (duration - 1) : Nat) : ℤ) - (today : ℤ) + 1
      if 0 < remainingDays then
        if remainingDays = 1 then "1 day left" else toString remainingDays ++ " days left"
      else "1"
    else "1"

/-- The Context-Window Resolver as seen by the Today view: `loadToday`
only reaches the display computation for contexts returned by
`getContextOn` (spec-modelled as `contextActiveOn`); a context with no
qualifying log date is omitted and contributes no display entry. -/
def resolveActiveContextDisplay (dates : List Nat) (duration today : Nat) : Option String :=
  if contextActiveOn dates duration today then
    some (loadTodayDisplayValue dates duration today)
  else
    none

/-- Restatement of the spec's average-formatting rule in the spec's own
terms, for comparison with `codeAvgFormat`: a mean under 60 minutes is
rendered as decimal hours to one decimal place; otherwise as pluralized
`"<H> hour[s] <M> minute[s]"` with `H` the floor of the hours and `M` the
rounded remainder minutes, the minutes clause omitted when the rounded
remainder is zero. -/
def averageFormatSpec (mean : ℚ) : String :=
  if mean < 60 then
    toFixed1 (mean / 60) ++ " hours"
  else
    let h : ℤ := ⌊mean / 60⌋
    let m : ℤ := round (mean - 60 * (h : ℚ))
    let hs := toString h ++ " hour" ++ (if h = 1 then "" else "s")
    if m = 0 then hs
    else hs ++ " " ++ toString m ++ " minute" ++ (if m = 1 then "" else "s")

/-- Restatement of the spec's per-interval formatting rule in the spec's
own terms, for comparison with `formatHM`: decompose into hours and
minutes, pluralize the units, omit the minutes clause when minutes is
zero, and show only minutes when hours is 0. -/
def intervalFormatSpec (hours minutes : Nat) : String :=
  if hours = 0 then
    toString minutes ++ " minute" ++ (if minutes = 1 then "" else "s")
  else if minutes = 0 then
    toString hours ++ " hour" ++ (if hours = 1 then "" else "s")
  else
    toString hours ++ " hour" ++ (if hours = 1 then "" else "s") ++ " " ++
      toString minutes ++ " minute" ++ (if minutes = 1 then "" else "s")


lemma sortDates_perm (l : List Nat) : (sortDates l).Perm l :=
  List.perm_insertionSort _ l

lemma sortDates_sorted (l : List Nat) : (sortDates l).Sorted (· ≤ ·) :=
  List.sorted_insertionSort _ l

lemma sorted_le_getLast {l : List Nat} (hne : l ≠ []) (hs : l.Sorted (· ≤ ·)) :
    ∀ x ∈ l, x ≤ l.getLast hne := by
  induction l with
  | nil => exact absurd rfl hne
  | cons a t ih =>
    intro x hx
    cases t with
    | nil =>
      simp only [List.mem_singleton] at hx
      simp [hx, List.getLast]
    | cons b t2 =>
      rw [List.getLast_cons (by simp)]
      rcases List.mem_cons.mp hx with rfl | hx2
      · exact List.rel_of_sorted_cons hs _ (List.getLast_mem (by simp))
      · exact ih (by simp) hs.of_cons x hx2

lemma detectGo_chain (start : Nat) : ∀ (l : List Nat) (cur : Nat),
    List.Chain' (fun a b => b - a ≤ 1) (cur :: l) →
    detectGo start cur l =
      [⟨start, (cur :: l).getLast (by simp), (cur :: l).getLast (by simp) - start + 1⟩] := by
  intro l
  induction l with
  | nil => intro cur _; simp [detectGo, List.getLast]
  | cons d rest ih =>
    intro cur hch
    rw [List.chain'_cons] at hch
    simp only [detectGo]
    rw [if_pos hch.1, ih d hch.2]
    simp [List.getLast_cons]

/-- The claim C1: on a non-empty date list whose sorted dates form one
single run of consecutive days, `detectPeriods` returns exactly one
period, whose start is the minimum date, whose end is the maximum date,
and whose duration is end minus start plus one. -/
theorem detectPeriods_single_run (dates : List Nat) (hne : dates ≠ [])
    (hrun : (sortDates dates).Chain' (fun a b => b - a ≤ 1)) :
    ∃ p : Period, detectPeriods dates = [p] ∧
      p.start ∈ dates ∧ p.end_ ∈ dates ∧
      (∀ x ∈ dates, p.start ≤ x ∧ x ≤ p.end_) ∧
      p.duration = p.end_ - p.start + 1 := by
  have hperm := sortDates_perm dates
  have hsorted := sortDates_sorted dates
  have hsne : sortDates dates ≠ [] := by
    intro h
    have hp2 := hperm.symm
    rw [h] at hp2
    exact hne hp2.eq_nil
  obtain ⟨m, rest, heq⟩ := List.exists_cons_of_ne_nil hsne
  rw [heq] at hperm hsorted hrun
  refine ⟨⟨m, (m :: rest).getLast (by simp), (m :: rest).getLast (by simp) - m + 1⟩,
    ?_, ?_, ?_, ?_, rfl⟩
  · unfold detectPeriods
    rw [heq]
    exact detectGo_chain m rest m hrun
  · exact hperm.mem_iff.mp (List.mem_cons_self m rest)
  · exact hperm.mem_iff.mp (List.getLast_mem (by simp))
  · intro x hx
    have hx2 : x ∈ m :: rest := hperm.mem_iff.mpr hx
    refine ⟨?_, sorted_le_getLast (by simp) hsorted x hx2⟩
    rcases List.mem_cons.mp hx2 with rfl | h
    · exact le_refl x
    · exact List.rel_of_sorted_cons hsorted x h

theorem detectPeriods_single_run_witness :
    ([7, 7] : List Nat) ≠ [] ∧
    (sortDates [7, 7]).Chain' (fun a b => b - a ≤ 1) ∧
    ∃ p : Period, detectPeriods [7, 7] = [p] ∧
      p.start ∈ [7, 7] ∧ p.end_ ∈ [7, 7] ∧
      (∀ x ∈ [7, 7], p.start ≤ x ∧ x ≤ p.end_) ∧
      p.duration = p.end_ - p.start + 1 := by
  have hch : (sortDates [7, 7]).Chain' (fun a b => b - a ≤ 1) := by
    rw [(by decide : sortDates [7, 7] = [7, 7])]
    exact List.chain'_pair.mpr (by decide)
  exact ⟨by decide, hch, detectPeriods_single_run [7, 7] (by decide) hch⟩

/-- The claim C2: `detectPeriods` is order-independent; permuting the
input list leaves the result unchanged, because the input is sorted
before the single scan. -/
theorem detectPeriods_order_independent (l1 l2 : List Nat) (h : l1.Perm l2) :
    detectPeriods l1 = detectPeriods l2 := by
  have hs : sortDates l1 = sortDates l2 :=
    List.eq_of_perm_of_sorted ((sortDates_perm l1).trans (h.trans (sortDates_perm l2).symm))
      (sortDates_sorted l1) (sortDates_sorted l2)
  unfold detectPeriods
  rw [hs]

theorem detectPeriods_order_independent_witness :
    ([3, 1, 2] : List Nat).Perm [1, 2, 3] ∧
    detectPeriods [3, 1, 2] = detectPeriods [1, 2, 3] :=
  ⟨by decide, detectPeriods_order_independent [3, 1, 2] [1, 2, 3] (by decide)⟩


lemma sortDates_eq_self {l : List Nat} (h : l.Sorted (· ≤ ·)) : sortDates l = l :=
  List.eq_of_perm_of_sorted (sortDates_perm l) (sortDates_sorted l) h

lemma sorted_map_range_add (D k : Nat) :
    ((List.range k).map (fun i => D + i)).Sorted (· ≤ ·) := by
  rw [List.Sorted, List.pairwise_map]
  exact (List.pairwise_lt_range k).imp (fun h => by omega)

lemma detectGo_consecutive (start : Nat) : ∀ (k cur : Nat),
    detectGo start cur ((List.range k).map (fun i => cur + 1 + i)) =
      [⟨start, cur + k, cur + k - start + 1⟩] := by
  intro k
  induction k with
  | zero => intro cur; simp [detectGo]
  | succ n ih =>
    intro cur
    have hrw : (List.range (n + 1)).map (fun i => cur + 1 + i)
        = (cur + 1) :: (List.range n).map (fun i => (cur + 1) + 1 + i) := by
      rw [List.range_succ_eq_map]
      simp only [List.map_cons, List.map_map, Nat.add_zero]
      congr 1
      apply List.map_congr_left
      intro i _
      simp only [Function.comp_apply]
      omega
    rw [hrw]
    simp only [detectGo]
    rw [if_pos (by omega), ih (cur + 1)]
    have h1 : cur + 1 + n = cur + (n + 1) := by omega
    rw [h1]

lemma expandContextDates_single (D duration : Nat) :
    expandContextDates [D] duration = (List.range duration).map (fun i => D + i) := by
  unfold expandContextDates
  have h1 : (([D] : List Nat).map (fun d => (List.range duration).map (fun i => d + i))).flatten
      = (List.range duration).map (fun i => D + i) := by
    simp
  rw [h1, List.dedup_eq_self.mpr ((List.nodup_range duration).map (fun a b h => by omega))]
  exact sortDates_eq_self (sorted_map_range_add D duration)

/-- The claim C3: for a context with duration greater than one, the
pre-expansion step contributes exactly the dates `d, d+1, …,
d+duration-1` for each observed log date `d`, and a context logged once
on day `D` yields one period from `D` to `D + duration - 1` whose
duration equals the context duration. -/
theorem context_duration_expansion (dates : List Nat) (duration D : Nat)
    (hdur : 1 < duration) :
    (∀ x, x ∈ expandContextDates dates duration ↔
      ∃ d ∈ dates, ∃ i, i < duration ∧ x = d + i) ∧
    detectPeriods (expandContextDates [D] duration) =
      [⟨D, D + (duration - 1), duration⟩] := by
  constructor
  · intro x
    unfold expandContextDates
    rw [(sortDates_perm _).mem_iff, List.mem_dedup, List.mem_flatten]
    constructor
    · rintro ⟨l, hl, hx⟩
      rw [List.mem_map] at hl
      obtain ⟨d, hd, rfl⟩ := hl
      rw [List.mem_map] at hx
      obtain ⟨i, hi, rfl⟩ := hx
      exact ⟨d, hd, i, List.mem_range.mp hi, rfl⟩
    · rintro ⟨d, hd, i, hi, rfl⟩
      refine ⟨(List.range duration).map (fun j => d + j), ?_, ?_⟩
      · exact List.mem_map.mpr ⟨d, hd, rfl⟩
      · exact List.mem_map.mpr ⟨i, List.mem_range.mpr hi, rfl⟩
  · rw [expandContextDates_single]
    obtain ⟨n, rfl⟩ : ∃ n, duration = n + 1 := ⟨duration - 1, by omega⟩
    have hrw : (List.range (n + 1)).map (fun i => D + i)
        = D :: (List.range n).map (fun i => D + 1 + i) := by
      rw [List.range_succ_eq_map]
      simp only [List.map_cons, List.map_map, Nat.add_zero]
      congr 1
      apply List.map_congr_left
      intro i _
      simp only [Function.comp_apply]
      omega
    unfold detectPeriods
    rw [sortDates_eq_self (sorted_map_range_add D (n + 1)), hrw]
    show detectGo D D ((List.range n).map (fun i => D + 1 + i)) = _
    rw [detectGo_consecutive D n D]
    have h1 : D + n - D + 1 = n + 1 := by omega
    have h2 : D + (n + 1 - 1) = D + n := by omega
    rw [h1, h2]

theorem context_duration_expansion_witness :
    (1 < 3) ∧
    ((12 ∈ expandContextDates [2, 5] 3) ↔ ∃ d ∈ [2, 5], ∃ i, i < 3 ∧ 12 = d + i) ∧
    detectPeriods (expandContextDates [10] 3) = [⟨10, 10 + (3 - 1), 3⟩] :=
  ⟨by decide, (context_duration_expansion [2, 5] 3 10 (by decide)).1 12,
    (context_duration_expansion [2, 5] 3 10 (by decide)).2⟩


lemma matchingLogs_length (logs : List NLog) (trackerTag : String) :
    (matchingLogs logs trackerTag).length = (logs.filter (logMatchesTracker trackerTag)).length :=
  List.length_insertionSort _ _

lemma calculateIntervals_of_many (logs : List NLog) (trackerTag : String)
    (h : ¬ (matchingLogs logs trackerTag).length < 2) :
    calculateIntervals logs trackerTag =
      { intervals := mkIntervals (matchingLogs logs trackerTag)
        averageHours := ((totalMinutesOf (mkIntervals (matchingLogs logs trackerTag)) : ℚ) /
          ((mkIntervals (matchingLogs logs trackerTag)).length : ℚ)) / 60
        averageMinutes := (totalMinutesOf (mkIntervals (matchingLogs logs trackerTag)) : ℚ) /
          ((mkIntervals (matchingLogs logs trackerTag)).length : ℚ)
        averageFormatted := codeAvgFormat ((totalMinutesOf (mkIntervals (matchingLogs logs trackerTag)) : ℚ) /
          ((mkIntervals (matchingLogs logs trackerTag)).length : ℚ)) } := by
  unfold calculateIntervals
  rw [if_neg h]

/-- The claim C4: with fewer than two matching entries,
`calculateIntervals` returns the empty interval list and the sentinel
average string. -/
theorem calculateIntervals_few_entries (logs : List NLog) (trackerTag : String)
    (h : (logs.filter (logMatchesTracker trackerTag)).length < 2) :
    calculateIntervals logs trackerTag =
      { intervals := [], averageHours := 0, averageMinutes := 0,
        averageFormatted := "N/A (need at least 2 entries)" } := by
  unfold calculateIntervals
  rw [if_pos]
  rw [matchingLogs_length]
  exact h

theorem calculateIntervals_few_entries_witness :
    (([⟨0, ["water"]⟩] : List NLog).filter (logMatchesTracker "water")).length < 2 ∧
    calculateIntervals [⟨0, ["water"]⟩] "water" =
      { intervals := [], averageHours := 0, averageMinutes := 0,
        averageFormatted := "N/A (need at least 2 entries)" } :=
  ⟨by decide, calculateIntervals_few_entries _ _ (by decide)⟩

lemma codeAvgFormat_eq_spec (μ : ℚ) :
    codeAvgFormat μ = averageFormatSpec μ := by
  simp only [codeAvgFormat, averageFormatSpec, round_eq]
  by_cases h : μ < 60
  · rw [if_pos ((div_lt_one (by norm_num)).mpr h), if_pos h]
  · rw [if_neg (fun hc => h ((div_lt_one (by norm_num)).mp hc)), if_neg h]
    have hfr : (0 : ℚ) ≤ μ - 60 * (⌊μ / 60⌋ : ℚ) := by
      have h1 : (⌊μ / 60⌋ : ℚ) ≤ μ / 60 := Int.floor_le _
      have h2 : 60 * (μ / 60) = μ := by ring
      nlinarith
    have hM : 0 ≤ ⌊μ - 60 * (⌊μ / 60⌋ : ℚ) + 1 / 2⌋ := Int.le_floor.mpr (by push_cast; linarith)
    rcases eq_or_ne ⌊μ - 60 * (⌊μ / 60⌋ : ℚ) + 1 / 2⌋ 0 with h2 | h2
    · rw [if_neg (by omega), if_pos h2]
      by_cases h1 : ⌊μ / 60⌋ = 1 <;> simp [h1]
    · rw [if_pos (by omega), if_neg h2]
      by_cases h1 : ⌊μ / 60⌋ = 1 <;>
        by_cases h3 : ⌊μ - 60 * (⌊μ / 60⌋ : ℚ) + 1 / 2⌋ = 1 <;>
          simp [h1, h3]

lemma codeAvgFormat_45 : codeAvgFormat 45 = "0.8 hours" := by
  simp only [codeAvgFormat]
  rw [if_pos (by norm_num)]
  simp only [toFixed1]
  rw [show ⌊(10 : ℚ) * ((45 : ℚ) / 60) + 1 / 2⌋ = 8 by rw [Int.floor_eq_iff]; norm_num]
  decide

lemma codeAvgFormat_30 : codeAvgFormat 30 = "0.5 hours" := by
  simp only [codeAvgFormat]
  rw [if_pos (by norm_num)]
  simp only [toFixed1]
  rw [show ⌊(10 : ℚ) * ((30 : ℚ) / 60) + 1 / 2⌋ = 5 by rw [Int.floor_eq_iff]; norm_num]
  decide

lemma codeAvgFormat_90 : codeAvgFormat 90 = "1 hour 30 minutes" := by
  simp only [codeAvgFormat]
  rw [if_neg (by norm_num)]
  rw [show ⌊(90 : ℚ) / 60⌋ = 1 by rw [Int.floor_eq_iff]; norm_num]
  rw [show ⌊(90 : ℚ) - 60 * ((1 : ℤ) : ℚ) + 1 / 2⌋ = 30 by rw [Int.floor_eq_iff]; norm_num]
  decide

lemma codeAvgFormat_119_5 : codeAvgFormat (239 / 2) = "1 hour 60 minutes" := by
  simp only [codeAvgFormat]
  rw [if_neg (by norm_num)]
  rw [show ⌊(239 : ℚ) / 2 / 60⌋ = 1 by rw [Int.floor_eq_iff]; norm_num]
  rw [show ⌊(239 : ℚ) / 2 - 60 * ((1 : ℤ) : ℚ) + 1 / 2⌋ = 60 by rw [Int.floor_eq_iff]; norm_num]
  decide


/-- The claim C5: with at least two matching entries, the formatted
average follows the spec's branching rule (decimal hours to one decimal
place under 60 minutes, floor-hours and rounded remainder minutes
otherwise, minutes clause omitted when the rounded remainder is zero);
in particular a single 45-minute gap renders as "0.8 hours" and gaps of
20 and 40 minutes average to "0.5 hours". -/
theorem average_format_rule :
    (∀ (logs : List NLog) (trackerTag : String),
      2 ≤ (logs.filter (logMatchesTracker trackerTag)).length →
      (calculateIntervals logs trackerTag).averageFormatted =
        averageFormatSpec ((calculateIntervals logs trackerTag).averageMinutes)) ∧
    (calculateIntervals [⟨0, ["sleep"]⟩, ⟨2700000, ["sleep"]⟩] "sleep").averageFormatted =
      "0.8 hours" ∧
    (calculateIntervals [⟨0, ["walk"]⟩, ⟨1200000, ["walk"]⟩, ⟨3600000, ["walk"]⟩] "walk").averageFormatted =
      "0.5 hours" := by
  refine ⟨?_, ?_, ?_⟩
  · intro logs trackerTag h2
    have hlt : ¬ (matchingLogs logs trackerTag).length < 2 := by
      rw [matchingLogs_length]
      omega
    rw [calculateIntervals_of_many logs trackerTag hlt]
    exact codeAvgFormat_eq_spec _
  · rw [calculateIntervals_of_many _ _ (by decide)]
    show codeAvgFormat _ = _
    rw [show mkIntervals (matchingLogs [⟨0, ["sleep"]⟩, ⟨2700000, ["sleep"]⟩] "sleep")
        = [⟨0, 45, "45 minutes"⟩] from by decide]
    rw [show totalMinutesOf [⟨0, 45, "45 minutes"⟩] = 45 from by decide]
    rw [show ((45 : Nat) : ℚ) / (([⟨(0 : Nat), (45 : Nat), "45 minutes"⟩] : List Interval).length : ℚ)
        = 45 from by norm_num]
    exact codeAvgFormat_45
  · rw [calculateIntervals_of_many _ _ (by decide)]
    show codeAvgFormat _ = _
    rw [show mkIntervals (matchingLogs [⟨0, ["walk"]⟩, ⟨1200000, ["walk"]⟩, ⟨3600000, ["walk"]⟩] "walk")
        = [⟨0, 20, "20 minutes"⟩, ⟨0, 40, "40 minutes"⟩] from by decide]
    rw [show totalMinutesOf [⟨0, 20, "20 minutes"⟩, ⟨0, 40, "40 minutes"⟩] = 60 from by decide]
    rw [show ((60 : Nat) : ℚ) /
        (([⟨(0 : Nat), (20 : Nat), "20 minutes"⟩, ⟨(0 : Nat), (40 : Nat), "40 minutes"⟩] : List Interval).length : ℚ)
        = 30 from by norm_num]
    exact codeAvgFormat_30

theorem average_format_rule_witness :
    2 ≤ (([⟨0, ["run"]⟩, ⟨5400000, ["run"]⟩] : List NLog).filter (logMatchesTracker "run")).length ∧
    (calculateIntervals [⟨0, ["run"]⟩, ⟨5400000, ["run"]⟩] "run").averageFormatted =
      averageFormatSpec ((calculateIntervals [⟨0, ["run"]⟩, ⟨5400000, ["run"]⟩] "run").averageMinutes) :=
  ⟨by decide, average_format_rule.1 [⟨0, ["run"]⟩, ⟨5400000, ["run"]⟩] "run" (by decide)⟩


/-- The claim C6: two matching entries exactly 90 minutes apart yield
exactly one interval `{hours: 1, minutes: 30, formatted: "1 hour 30
minutes"}` with the average formatted the same way, and the per-interval
formatter agrees everywhere with the spec's rule (div/mod-60
decomposition, pluralization, minutes clause omitted when zero, only
minutes when hours is 0). -/
theorem interval_round_trip :
    calculateIntervals [⟨0, ["coffee"]⟩, ⟨5400000, ["coffee"]⟩] "coffee" =
      { intervals := [⟨1, 30, "1 hour 30 minutes"⟩]
        averageHours := 3 / 2
        averageMinutes := 90
        averageFormatted := "1 hour 30 minutes" } ∧
    (∀ h m : Nat, formatHM h m = intervalFormatSpec h m) := by
  constructor
  · rw [calculateIntervals_of_many _ _ (by decide)]
    rw [show mkIntervals (matchingLogs [⟨0, ["coffee"]⟩, ⟨5400000, ["coffee"]⟩] "coffee")
        = [⟨1, 30, "1 hour 30 minutes"⟩] from by decide]
    rw [show totalMinutesOf [⟨1, 30, "1 hour 30 minutes"⟩] = 90 from by decide]
    rw [show ((90 : Nat) : ℚ) /
        (([⟨(1 : Nat), (30 : Nat), "1 hour 30 minutes"⟩] : List Interval).length : ℚ) = 90 from by norm_num]
    rw [codeAvgFormat_90]
    norm_num
  · intro h m
    simp only [formatHM, intervalFormatSpec]
    split_ifs <;> first | rfl | omega

/-- The claim C10: with gaps of 119 and 120 minutes the mean is 119.5
minutes and `Math.round(averageMinutes % 60)` reaches 60 without
carrying into the hour count, so the average renders as
"1 hour 60 minutes". -/
theorem average_minutes_can_show_sixty :
    (calculateIntervals [⟨0, ["med"]⟩, ⟨7140000, ["med"]⟩, ⟨14340000, ["med"]⟩] "med").averageFormatted =
      "1 hour 60 minutes" := by
  rw [calculateIntervals_of_many _ _ (by decide)]
  show codeAvgFormat _ = _
  rw [show mkIntervals (matchingLogs [⟨0, ["med"]⟩, ⟨7140000, ["med"]⟩, ⟨14340000, ["med"]⟩] "med")
      = [⟨1, 59, "1 hour 59 minutes"⟩, ⟨2, 0, "2 hours"⟩] from by decide]
  rw [show totalMinutesOf [⟨1, 59, "1 hour 59 minutes"⟩, ⟨2, 0, "2 hours"⟩] = 239 from by decide]
  rw [show ((239 : Nat) : ℚ) /
      (([⟨(1 : Nat), (59 : Nat), "1 hour 59 minutes"⟩, ⟨(2 : Nat), (0 : Nat), "2 hours"⟩] : List Interval).length : ℚ)
      = 239 / 2 from by norm_num]
  exact codeAvgFormat_119_5


lemma detectGo_ne_nil : ∀ (l : List Nat) (start cur : Nat), detectGo start cur l ≠ [] := by
  intro l
  induction l with
  | nil => intro start cur; simp [detectGo]
  | cons d rest ih =>
    intro start cur
    simp only [detectGo]
    by_cases h : d - cur ≤ 1
    · rw [if_pos h]; exact ih start d
    · rw [if_neg h]; exact List.cons_ne_nil _ _

lemma detectPeriods_ne_nil (dates : List Nat) (hne : dates ≠ []) :
    detectPeriods dates ≠ [] := by
  unfold detectPeriods
  cases hs : sortDates dates with
  | nil =>
    have hp := (sortDates_perm dates).symm
    rw [hs] at hp
    exact absurd hp.eq_nil hne
  | cons d rest => exact detectGo_ne_nil rest d d

lemma lastPeriodOf_spec (ps : List Period) (h : ps ≠ []) :
    ∃ pl, lastPeriodOf ps = some pl ∧ pl ∈ ps ∧ ∀ q ∈ ps, q.end_ ≤ pl.end_ := by
  have hperm : (List.insertionSort endGE ps).Perm ps := List.perm_insertionSort _ _
  have hsorted : (List.insertionSort endGE ps).Sorted endGE := List.sorted_insertionSort _ _
  have hne : List.insertionSort endGE ps ≠ [] := by
    intro h0
    have hp2 := hperm.symm
    rw [h0] at hp2
    exact h hp2.eq_nil
  obtain ⟨m, rest, heq⟩ := List.exists_cons_of_ne_nil hne
  rw [heq] at hperm hsorted
  refine ⟨m, ?_, ?_, ?_⟩
  · unfold lastPeriodOf
    rw [heq]
    rfl
  · exact hperm.mem_iff.mp (List.mem_cons_self m rest)
  · intro q hq
    rcases List.mem_cons.mp (hperm.mem_iff.mpr hq) with rfl | hq2
    · exact le_refl _
    · exact List.rel_of_sorted_cons hsorted q hq2

lemma foldl_longest_spec (l : List Period) : ∀ (a : Period),
    (l.foldl (fun longest q => if longest.duration < q.duration then q else longest) a) ∈ a :: l ∧
    (∀ q ∈ a :: l,
      q.duration ≤ (l.foldl (fun longest q => if longest.duration < q.duration then q else longest) a).duration) ∧
    (a :: l).find?
        (fun q => decide ((l.foldl (fun longest q => if longest.duration < q.duration then q else longest) a).duration ≤ q.duration)) =
      some (l.foldl (fun longest q => if longest.duration < q.duration then q else longest) a) := by
  induction l with
  | nil =>
    intro a
    refine ⟨List.mem_singleton_self a, ?_, ?_⟩
    · intro q hq
      rw [List.mem_singleton.mp hq]
      exact le_refl _
    · exact List.find?_cons_of_pos _ (by simp)
  | cons b t ih =>
    intro a
    simp only [List.foldl_cons]
    by_cases hab : a.duration < b.duration
    · simp only [if_pos hab]
      obtain ⟨ih1, ih2, ih3⟩ := ih b
      have hrb : b.duration ≤ (t.foldl (fun longest q => if longest.duration < q.duration then q else longest) b).duration :=
        ih2 b (List.mem_cons_self b t)
      refine ⟨List.mem_cons_of_mem a ih1, ?_, ?_⟩
      · intro q hq
        rcases List.mem_cons.mp hq with rfl | hq2
        · omega
        · exact ih2 q hq2
      · rw [List.find?_cons_of_neg _ (by simp; omega)]
        exact ih3
    · simp only [if_neg hab]
      obtain ⟨ih1, ih2, ih3⟩ := ih a
      have hra : a.duration ≤ (t.foldl (fun longest q => if longest.duration < q.duration then q else longest) a).duration :=
        ih2 a (List.mem_cons_self a t)
      refine ⟨?_, ?_, ?_⟩
      · rcases List.mem_cons.mp ih1 with h1 | h1
        · rw [h1]; exact List.mem_cons_self a (b :: t)
        · exact List.mem_cons_of_mem a (List.mem_cons_of_mem b h1)
      · intro q hq
        rcases List.mem_cons.mp hq with rfl | hq2
        · exact hra
        rcases List.mem_cons.mp hq2 with rfl | hq3
        · omega
        · exact ih2 q (List.mem_cons_of_mem a hq3)
      · by_cases hpa :
          (t.foldl (fun longest q => if longest.duration < q.duration then q else longest) a).duration ≤ a.duration
        · rw [List.find?_cons_of_pos _ (by simpa using hpa)]
          rw [List.find?_cons_of_pos _ (by simpa using hpa)] at ih3
          exact ih3
        · rw [List.find?_cons_of_neg _ (by simpa using hpa)]
          rw [List.find?_cons_of_neg _ (by simpa using hpa)] at ih3
          rw [List.find?_cons_of_neg _ (by simp; omega)]
          exact ih3

lemma longestPeriodOf_spec (ps : List Period) (h : ps ≠ []) :
    ∃ lg, longestPeriodOf ps = some lg ∧ lg ∈ ps ∧ (∀ q ∈ ps, q.duration ≤ lg.duration) ∧
      ps.find? (fun q => decide (lg.duration ≤ q.duration)) = some lg := by
  obtain ⟨p, rest, rfl⟩ := List.exists_cons_of_ne_nil h
  simp only [longestPeriodOf]
  rw [List.foldl_cons, if_neg (lt_irrefl _)]
  obtain ⟨h1, h2, h3⟩ := foldl_longest_spec rest p
  exact ⟨_, rfl, h1, h2, h3⟩

/-- The claim C7: on a non-empty (expanded) date set, the enhancement
step records `lastPeriod` as a detected period whose end is most recent
and `longestPeriod` as a detected period of maximal duration, ties broken
in favor of the first-encountered period of the detector's output
(expressed by `find?`: the first period whose duration reaches the
maximum is the recorded one). -/
theorem usage_last_longest_periods (dates : List Nat) (hne : dates ≠ []) :
    ∃ pl lg : Period,
      lastPeriodOf (detectPeriods dates) = some pl ∧
      longestPeriodOf (detectPeriods dates) = some lg ∧
      pl ∈ detectPeriods dates ∧
      (∀ q ∈ detectPeriods dates, q.end_ ≤ pl.end_) ∧
      lg ∈ detectPeriods dates ∧
      (∀ q ∈ detectPeriods dates, q.duration ≤ lg.duration) ∧
      (detectPeriods dates).find? (fun q => decide (lg.duration ≤ q.duration)) = some lg := by
  have hp : detectPeriods dates ≠ [] := detectPeriods_ne_nil dates hne
  obtain ⟨pl, h1, h2, h3⟩ := lastPeriodOf_spec _ hp
  obtain ⟨lg, g1, g2, g3, g4⟩ := longestPeriodOf_spec _ hp
  exact ⟨pl, lg, h1, g1, h2, h3, g2, g3, g4⟩

theorem usage_last_longest_periods_witness :
    ([1, 5] : List Nat) ≠ [] ∧
    ∃ pl lg : Period,
      lastPeriodOf (detectPeriods [1, 5]) = some pl ∧
      longestPeriodOf (detectPeriods [1, 5]) = some lg ∧
      pl ∈ detectPeriods [1, 5] ∧
      (∀ q ∈ detectPeriods [1, 5], q.end_ ≤ pl.end_) ∧
      lg ∈ detectPeriods [1, 5] ∧
      (∀ q ∈ detectPeriods [1, 5], q.duration ≤ lg.duration) ∧
      (detectPeriods [1, 5]).find? (fun q => decide (lg.duration ≤ q.duration)) = some lg :=
  ⟨by decide, usage_last_longest_periods [1, 5] (by decide)⟩


lemma foldl_max_spec (l : List Nat) : ∀ (a : Nat),
    (l.foldl (fun latest current => if latest < current then current else latest) a) ∈ a :: l ∧
    ∀ x ∈ a :: l, x ≤ l.foldl (fun latest current => if latest < current then current else latest) a := by
  induction l with
  | nil =>
    intro a
    refine ⟨List.mem_singleton_self a, ?_⟩
    intro x hx
    rw [List.mem_singleton.mp hx]
    exact le_refl _
  | cons b t ih =>
    intro a
    simp only [List.foldl_cons]
    by_cases hab : a < b
    · simp only [if_pos hab]
      obtain ⟨ih1, ih2⟩ := ih b
      refine ⟨List.mem_cons_of_mem a ih1, ?_⟩
      intro x hx
      rcases List.mem_cons.mp hx with rfl | hx2
      · have := ih2 b (List.mem_cons_self b t)
        omega
      · exact ih2 x hx2
    · simp only [if_neg hab]
      obtain ⟨ih1, ih2⟩ := ih a
      refine ⟨?_, ?_⟩
      · rcases List.mem_cons.mp ih1 with h1 | h1
        · rw [h1]
          exact List.mem_cons_self _ _
        · exact List.mem_cons_of_mem a (List.mem_cons_of_mem b h1)
      · intro x hx
        rcases List.mem_cons.mp hx with rfl | hx2
        · exact ih2 x (List.mem_cons_self x t)
        rcases List.mem_cons.mp hx2 with rfl | hx3
        · have := ih2 a (List.mem_cons_self a t)
          omega
        · exact ih2 x (List.mem_cons_of_mem a hx3)

/-- The claim C8: for a context with duration greater than one, when a
most recent log date `d` with `d ≤ today ≤ d + duration - 1` exists, the
resolver computes `remainingDays = (d + duration - 1) - today + 1` and
displays "1 day left" when it equals one and "N days left" otherwise;
when no qualifying log date exists the context is omitted and
contributes no active display entry. -/
theorem loadToday_remaining_days (dates : List Nat) (duration today : Nat)
    (hdur : 1 < duration) :
    (∀ d ∈ dates, d ≤ today → today ≤ d + (duration - 1) →
      (∀ e ∈ dates, e ≤ today → today ≤ e + (duration - 1) → e ≤ d) →
      resolveActiveContextDisplay dates duration today =
        some (if (d : ℤ) + duration - 1 - today + 1 = 1 then "1 day left"
          else toString ((d : ℤ) + duration - 1 - today + 1) ++ " days left")) ∧
    ((∀ e ∈ dates, ¬(e ≤ today ∧ today ≤ e + (duration - 1))) →
      resolveActiveContextDisplay dates duration today = none) := by
  constructor
  · intro d hd h1 h2 hmax
    have hact : contextActiveOn dates duration today = true := by
      simp only [contextActiveOn, List.any_eq_true]
      exact ⟨d, hd, by simp [h1, h2]⟩
    unfold resolveActiveContextDisplay
    rw [if_pos hact]
    have hdA : d ∈ dates.filter (fun dd => decide (dd ≤ today) && decide (today ≤ dd + (duration - 1))) :=
      List.mem_filter.mpr ⟨hd, by simp [h1, h2]⟩
    simp only [loadTodayDisplayValue]
    cases hA : dates.filter (fun dd => decide (dd ≤ today) && decide (today ≤ dd + (duration - 1))) with
    | nil =>
      rw [hA] at hdA
      simp at hdA
    | cons a rest =>
      rw [hA] at hdA
      simp only [hA]
      obtain ⟨hm1, hm2⟩ := foldl_max_spec rest a
      have hdM : d ≤ rest.foldl (fun latest current => if latest < current then current else latest) a :=
        hm2 d hdA
      have hMd : rest.foldl (fun latest current => if latest < current then current else latest) a ≤ d := by
        have hMA : rest.foldl (fun latest current => if latest < current then current else latest) a
            ∈ dates.filter (fun dd => decide (dd ≤ today) && decide (today ≤ dd + (duration - 1))) := by
          rw [hA]
          exact hm1
        obtain ⟨hMdates, hMpred⟩ := List.mem_filter.mp hMA
        simp only [Bool.and_eq_true, decide_eq_true_eq] at hMpred
        exact hmax _ hMdates hMpred.1 hMpred.2
      have hMeq : rest.foldl (fun latest current => if latest < current then current else latest) a = d :=
        le_antisymm hMd hdM
      rw [hMeq, if_pos hdur]
      have hrd : ((d + (duration - 1) : Nat) : ℤ) - (today : ℤ) + 1
          = (d : ℤ) + duration - 1 - today + 1 := by omega
      rw [hrd]
      rw [if_pos (by omega : (0 : ℤ) < (d : ℤ) + duration - 1 - today + 1)]
  · intro hnone
    have hact : contextActiveOn dates duration today = false := by
      simp only [contextActiveOn, List.any_eq_false]
      intro e he
      have := hnone e he
      simp only [Bool.and_eq_true, decide_eq_true_eq]
      omega
    unfold resolveActiveContextDisplay
    simp [hact]

theorem loadToday_remaining_days_witness :
    (1 < 3) ∧
    resolveActiveContextDisplay [10] 3 11 = some "2 days left" ∧
    resolveActiveContextDisplay [4] 3 11 = none := by
  refine ⟨by decide, ?_, ?_⟩
  · have h := (loadToday_remaining_days [10] 3 11 (by decide)).1 10 (by decide) (by decide)
      (by decide) (by decide)
    rw [h]
    norm_num
    decide
  · exact (loadToday_remaining_days [4] 3 11 (by decide)).2 (by decide)


/-- Counterexample to the claim C9 as stated: a Tracker-type usage record
with two matching entries, one of which carries a missing (`NaN`) value,
has `count = 1`, so the enhancement guard `trackable?.type === 'tracker'
&& baseData.count > 1` does NOT attach `intervals`/`averageInterval`
although the tag has at least two matching log entries. -/
theorem intervals_presence_counterexample :
    (UsageInput.mk (TrackableType.tracker "value") [some 1, none] [0, 1]).values.length = 2 ∧
    isTracker (UsageInput.mk (TrackableType.tracker "value") [some 1, none] [0, 1]).ttype = true ∧
    intervalsAttached (UsageInput.mk (TrackableType.tracker "value") [some 1, none] [0, 1]) = false := by
  refine ⟨rfl, rfl, ?_⟩
  rfl

/-- The claim C9 as amended: `intervals` and `averageInterval` are
attached exactly when the trackable is a Tracker and at least two of its
matching entries carry non-missing numeric values (`count > 1`); in
particular they are absent for every Context. -/
theorem intervals_presence_rule :
    (∀ u : UsageInput, intervalsAttached u = true ↔
      (isTracker u.ttype = true ∧ 2 ≤ usageCount u)) ∧
    (∀ (dur : Nat) (vals : List (Option ℚ)) (dts : List Nat),
      intervalsAttached ⟨TrackableType.context dur, vals, dts⟩ = false) := by
  constructor
  · intro u
    unfold intervalsAttached
    simp only [Bool.and_eq_true, decide_eq_true_eq]
    exact and_congr_right fun _ => by omega
  · intro dur vals dts
    unfold intervalsAttached isTracker
    simp

end Nomie
